import Mathlib

/-!
Shallow embedding of the two crawler implementations of this repository:
the tabular-format crawler (`NowonCrawler`) and the embedded-markup crawler
(`TennisCourtCrawler`, with its `CircuitBreaker`).  Pure computations are
translated directly; network calls are abstracted as explicit oracles
(`Except`-valued transports), and the orchestration loops are modelled as
folds that additionally record an event trace (calls and sleeps).
-/

namespace Crawler

/-- JS `s.padStart(2, '0')`: prepend `'0'` characters until length 2. -/
def padStart2 (s : String) : String :=
  if 2 ≤ s.length then s else String.mk (List.replicate (2 - s.length) '0') ++ s

/-- JS `n.toString().padStart(2, '0')` for a nonnegative number. -/
def padTwoNat (n : Nat) : String := padStart2 (toString n)

/-- JS `Math.floor(x).toString().padStart(2, '0')` rendering of an integer. -/
def padTwoInt (i : Int) : String := padStart2 (toString i)

/-- JS `x || d` on an optional string field: `undefined` and `""` are falsy. -/
def jsOrDefault (s : Option String) (d : String) : String :=
  match s with
  | none => d
  | some v => if v = "" then d else v

/-- Numeric value of a digit string, as JS `parseInt` computes it on an
all-digit input. -/
def digitsToNat (l : List Char) : Nat :=
  l.foldl (fun n c => n * 10 + (c.toNat - 48)) 0

/-- JS `s.split(sep)` for a one-character separator, over the char list. -/
def splitOnCharAux (sep : Char) : List Char → List (List Char)
  | [] => [[]]
  | c :: rest =>
      match splitOnCharAux sep rest with
      | [] => [[]]
      | h :: t => if c = sep then [] :: h :: t else (c :: h) :: t

/-- JS `s.split(sep)` for a one-character separator. -/
def jsSplit (s : String) (sep : Char) : List String :=
  (splitOnCharAux sep s.data).map String.mk

/-- Rational addition in a kernel-computable form; `qadd_eq` proves it equal
to `+`.  Used for the slot loop's accumulator so that concrete runs evaluate. -/
def qadd (a b : ℚ) : ℚ := mkRat (a.num * b.den + b.num * a.den) (a.den * b.den)

/-- The digit sequence `Nat.repr` renders: `[0]` for zero, otherwise the
base-10 digits most significant first.  Used to reason about the rendered
hour labels. -/
def reprDigits (n : Nat) : List Nat :=
  if n = 0 then [0] else (Nat.digits 10 n).reverse

end Crawler

namespace Nowon

open Crawler

/-- Response of `reserve_time_pick` (`TimeListResponse` in the source).
`useBeginHour` and `hourUnit` are JS numbers, possibly fractional; they are
modelled as rationals. `line` is a string that the source passes to
`parseInt`. -/
structure TimeListResponse where
  useBeginHour : ℚ
  hourUnit : ℚ
  line : String
deriving DecidableEq

/-- One entry of the reserved list (`ReservedItem`).  `cseq` is stored as its
JS template-literal stringification (an absent field renders as
`"undefined"`). -/
structure ReservedItem where
  cseq : String
  useTimeBegin : Option String
deriving DecidableEq

/-- Response of the reserve-check API (`CheckReserveResponse`). -/
structure CheckReserveResponse where
  list : Option (List ReservedItem)
deriving DecidableEq

/-- One output row (`CrawlRow`). -/
structure CrawlRow where
  date : String
  court : String
  startTime : String
  endTime : String
  status : String
deriving DecidableEq

/-- JS regex test `/^\d+$/.test(s)`. -/
def isAllDigits (s : String) : Bool := s ≠ "" && s.data.all Char.isDigit

/-- JS `parseInt` on a string that passed `/^\d+$/`: the digit value. -/
def digitsVal (s : String) : Nat := digitsToNat s.data

/-- Normalized reserved key for one entry, per the source:
`let beginTime = r.useTimeBegin || "00:00"`, then if it is a bare integer
string, zero-pad its value and suffix `":00"`; key is `` `${r.cseq},${beginTime}` ``. -/
def reservedKey (r : ReservedItem) : String :=
  let beginTime := jsOrDefault r.useTimeBegin "00:00"
  let beginTime :=
    if isAllDigits beginTime then padTwoNat (digitsVal beginTime) ++ ":00" else beginTime
  r.cseq ++ "," ++ beginTime

/-- The reserved-key set (a JS `Set` used only for membership, modelled as
the list of keys). -/
def buildReservedSet (l : List ReservedItem) : List String := l.map reservedKey

/-- Court roster for a facility, exactly as the source builds the strings
`` `${i + 1}코트@${base + i + 1}` ``. -/
def courtsFor (cate2 : Nat) : List String :=
  if cate2 = 17 then
    (List.range 4).map (fun i => toString (i + 1) ++ "코트@" ++ toString (29 + i + 1))
  else if cate2 = 15 then
    (List.range 3).map (fun i => toString (i + 1) ++ "코트@" ++ toString (17 + i + 1))
  else
    (List.range 9).map (fun i => toString (i + 1) ++ "코트@" ++ toString (20 + i + 1))

/-- Facility-specific label prefix chosen alongside the roster. -/
def prefixFor (cate2 : Nat) : String :=
  if cate2 = 17 then "2" else if cate2 = 15 then "" else "1"

/-- The court display label: `c.split('@')[0]`, prefixed when the prefix is
truthy (`prefix ? `${prefix}${courtName}` : courtName`). -/
def courtLabel (pfx c : String) : String :=
  let courtName := (jsSplit c '@').headD ""
  if pfx ≠ "" then pfx ++ courtName else courtName

/-- The court sequence id: `c.split('@')[1]` (an absent component renders as
`"undefined"` in the template literal). -/
def courtSeqOf (c : String) : String := ((jsSplit c '@')[1]?).getD "undefined"

/-- Start/end time text: `` `${Math.floor(t).toString().padStart(2, '0')}:00` ``. -/
def startText (t : ℚ) : String := padTwoInt ⌊t⌋ ++ ":00"

/-- One generated row for court string `c` at the given rendered interval. -/
def mkRow (pickDate : String) (resSet : List String) (pfx startTxt endTxt c : String) :
    CrawlRow :=
  let key := courtSeqOf c ++ "," ++ startTxt
  let isReserved := resSet.contains key
  { date := pickDate
    court := courtLabel pfx c
    startTime := startTxt
    endTime := endTxt
    status := if isReserved then "예약불가" else "예약가능" }

/-- The slot-generation loop: `lineCount` iterations, each pushing one row per
court, with the fractional accumulator `startTime` advanced by `hourUnit`. -/
def genRows (pickDate : String) (resSet : List String) (courts : List String)
    (pfx : String) : ℚ → ℚ → Nat → List CrawlRow
  | _, _, 0 => []
  | start, unit, n + 1 =>
      courts.map (mkRow pickDate resSet pfx (startText start) (startText (qadd start unit))) ++
      genRows pickDate resSet courts pfx (qadd start unit) unit n

/-- JS `parseInt(s)` as used for the loop bound `i < lineCount`: leading
whitespace and an optional `+` sign are skipped, then leading digits are
read; a missing digit run (`NaN`) or a negative value runs the loop zero
times, modelled as 0. -/
def parseIntLoopCount (s : String) : Nat :=
  let t := s.data.dropWhile (fun c => c.isWhitespace)
  let t := match t with
    | '+' :: rest => rest
    | _ => t
  digitsToNat (t.takeWhile Char.isDigit)

/-- The pure core of `crawlAvailableTimes`: build the reserved-key set,
pick the roster, and generate the rows. -/
def crawlAvailableTimes (res : TimeListResponse) (reserved : List ReservedItem)
    (cate2 : Nat) (pickDate : String) : List CrawlRow :=
  genRows pickDate (buildReservedSet reserved) (courtsFor cate2) (prefixFor cate2)
    res.useBeginHour res.hourUnit (parseIntLoopCount res.line)

end Nowon

namespace Dobong

open Crawler

/-- Canonical time slot (`TimeSlot` in the source). -/
structure TimeSlot where
  time : String
  available : Bool
  price : String
  status : String
deriving DecidableEq

/-- One checkbox control of a court's markup fragment: its `value` attribute
(`''` when absent, as in `checkbox.attr('value') || ''`) and whether the
`disabled` attribute is present. -/
structure Checkbox where
  value : String
  disabled : Bool
deriving DecidableEq

/-- One per-court block of the upstream payload (`play_name` array element).
The markup fragment `htmlx` is abstracted to the list of checkbox controls
the HTML parser finds in it; `none` models an absent `htmlx` field. -/
structure CourtInfo where
  play_name : Option String
  play_code : Option String
  place_code : Option String
  event_code : Option String
  htmlx : Option (List Checkbox)
deriving DecidableEq

/-- Parsed per-court output (`CourtData`). -/
structure CourtData where
  court_name : String
  court_code : String
  place_code : String
  event_code : String
  time_slots : List TimeSlot
  available_slots : Nat
  total_slots : Nat
  has_availability : Bool
deriving DecidableEq

/-- Per-date result (`AvailabilityResult`). -/
structure AvailabilityResult where
  date : String
  formatted_date : Option String
  status : String
  error : Option String
  courts : List CourtData
  total_available_slots : Option Nat
  has_availability : Option Bool
deriving DecidableEq

/-- Attempt of the regex `/(\d{1,2}):(\d{2})/` at one position, trying the
greedy two-digit hour first. -/
def twoDigitAt : List Char → Option (String × String)
  | d1 :: d2 :: c :: m1 :: m2 :: _ =>
      if d1.isDigit && d2.isDigit && c = ':' && m1.isDigit && m2.isDigit then
        some (String.mk [d1, d2], String.mk [m1, m2])
      else none
  | _ => none

/-- Backtracked one-digit-hour attempt of the same regex at one position. -/
def oneDigitAt : List Char → Option (String × String)
  | d1 :: c :: m1 :: m2 :: _ =>
      if d1.isDigit && c = ':' && m1.isDigit && m2.isDigit then
        some (String.mk [d1], String.mk [m1, m2])
      else none
  | _ => none

/-- Left-to-right scan of `/(\d{1,2}):(\d{2})/`: at each position try the
greedy two-digit hour, then backtrack to one digit, else advance. -/
def findTimeMatch : List Char → Option (String × String)
  | [] => none
  | c :: rest =>
      match twoDigitAt (c :: rest) with
      | some r => some r
      | none =>
          match oneDigitAt (c :: rest) with
          | some r => some r
          | none => findTimeMatch rest

/-- JS `value.match(/(\d{1,2}):(\d{2})/)`, returning the two captures. -/
def matchTime (s : String) : Option (String × String) := findTimeMatch s.data

/-- The body of the `each` callback in `parseTimeSlots` for one checkbox:
extract the time, drop `06:00`, decrement hours ≥ 7, and format. -/
def slotOfCheckbox (cb : Checkbox) : Option TimeSlot :=
  match matchTime cb.value with
  | none => none
  | some (hs, ms) =>
      let hour := digitsToNat hs.data
      if hour = 6 && ms = "00" then none
      else
        let hour := if 7 ≤ hour then hour - 1 else hour
        let isAvailable := !cb.disabled
        some { time := padTwoNat hour ++ ":" ++ ms
               available := isAvailable
               price := ""
               status := if isAvailable then "available" else "disabled" }

/-- `parseTimeSlots`: one slot per matching checkbox control, in order. -/
def parseTimeSlots (controls : List Checkbox) : List TimeSlot :=
  controls.filterMap slotOfCheckbox

/-- The court-list payload as `parseAvailabilityData` receives it:
`none` when `data.play_name` is falsy, `some (.error ())` when it is a string
`JSON.parse` throws on, `some (.ok l)` when it yields the block list. -/
def PlayPayload := Option (Except Unit (List CourtInfo))

/-- Extraction of the block list, with the `try`/`catch` leaving `playData`
empty on a parse error. -/
def parsePlayData (p : PlayPayload) : List CourtInfo :=
  match p with
  | none => []
  | some (Except.error _) => []
  | some (Except.ok l) => l

/-- The `forEach` body of `parseAvailabilityData` for block `i`. -/
def mkCourtData (i : Nat) (ci : CourtInfo) : CourtData :=
  let slots := match ci.htmlx with
    | none => []
    | some cbs => parseTimeSlots cbs
  { court_name := jsOrDefault ci.play_name ("코트" ++ toString (i + 1))
    court_code := jsOrDefault ci.play_code ""
    place_code := jsOrDefault ci.place_code ""
    event_code := jsOrDefault ci.event_code ""
    time_slots := slots
    available_slots := (slots.filter (fun s => s.available)).length
    total_slots := slots.length
    has_availability := 0 < (slots.filter (fun s => s.available)).length }

/-- `parseAvailabilityData`: always a `'success'` result whose courts are the
per-block parses and whose totals sum the per-court counts. -/
def parseAvailabilityData (dateStr : String) (p : PlayPayload) : AvailabilityResult :=
  let playData := parsePlayData p
  let courts := playData.enum.map (fun ic => mkCourtData ic.1 ic.2)
  let total := courts.foldl (fun sum c => sum + c.available_slots) 0
  { date := dateStr
    formatted_date := some (dateStr.take 4 ++ "년 " ++ (dateStr.drop 4).take 2 ++ "월 " ++
      (dateStr.drop 6).take 2 ++ "일")
    status := "success"
    error := none
    courts := courts
    total_available_slots := some total
    has_availability := some (0 < total) }

/-- The transport oracle for one date: the composite of the session `GET`,
the ajax `POST` and the top-level `JSON.parse`, any of whose failures raises
into the `catch` with an error message; on success it yields the
`play_name` payload of the parsed body. -/
def Transport := String → Except String PlayPayload

/-- The error placeholder built in the `catch` of `checkAvailability`. -/
def errorResult (dateStr msg : String) : AvailabilityResult :=
  { date := dateStr
    formatted_date := none
    status := "error"
    error := some msg
    courts := []
    total_available_slots := none
    has_availability := none }

/-- `checkAvailability`: parse on success, error placeholder on any error. -/
def checkAvailability (transport : Transport) (dateStr : String) : AvailabilityResult :=
  match transport dateStr with
  | Except.error msg => errorResult dateStr msg
  | Except.ok payload => parseAvailabilityData dateStr payload

end Dobong

namespace Breaker

/-- `CircuitBreaker` state tag. -/
inductive CBTag where
  | CLOSED
  | OPEN
  | HALF_OPEN
deriving DecidableEq

/-- The `CircuitBreaker` instance fields.  Timestamps are `Date.now()`
millisecond values, modelled as naturals. -/
structure CircuitBreaker where
  failure_threshold : Nat
  recovery_timeout : Nat
  failure_count : Nat
  last_failure_time : Option Nat
  state : CBTag
deriving DecidableEq

/-- The constructor: counters zeroed, no failure recorded, `CLOSED`. -/
def init (failure_threshold recovery_timeout : Nat) : CircuitBreaker :=
  { failure_threshold := failure_threshold
    recovery_timeout := recovery_timeout
    failure_count := 0
    last_failure_time := none
    state := CBTag.CLOSED }

/-- `isAvailable()`, with the mutation `OPEN → HALF_OPEN` made explicit in the
returned state.  The guard mirrors
`if (this.last_failure_time && Date.now() - this.last_failure_time > this.recovery_timeout * 1000)`,
including the JS falsiness of a zero timestamp; `Nat` subtraction truncates
exactly where the JS difference would be negative and the `>` test false. -/
def isAvailable (cb : CircuitBreaker) (now : Nat) : Bool × CircuitBreaker :=
  match cb.state with
  | CBTag.CLOSED => (true, cb)
  | CBTag.OPEN =>
      match cb.last_failure_time with
      | some t =>
          if t ≠ 0 && cb.recovery_timeout * 1000 < now - t then
            (true, { cb with state := CBTag.HALF_OPEN })
          else (false, cb)
      | none => (false, cb)
  | CBTag.HALF_OPEN => (true, cb)

/-- `recordSuccess()`. -/
def recordSuccess (cb : CircuitBreaker) : CircuitBreaker :=
  { cb with failure_count := 0, state := CBTag.CLOSED }

/-- `recordFailure()` at time `now`. -/
def recordFailure (cb : CircuitBreaker) (now : Nat) : CircuitBreaker :=
  let fc := cb.failure_count + 1
  { cb with
    failure_count := fc
    last_failure_time := some now
    state := if cb.failure_threshold ≤ fc then CBTag.OPEN else cb.state }

/-- One interaction with the breaker object. -/
inductive CBEvent where
  | check (now : Nat)
  | success
  | failure (now : Nat)
deriving DecidableEq

/-- Applying one interaction. -/
def step (cb : CircuitBreaker) : CBEvent → CircuitBreaker
  | CBEvent.check now => (isAvailable cb now).2
  | CBEvent.success => recordSuccess cb
  | CBEvent.failure now => recordFailure cb now

/-- A whole interaction history. -/
def run (cb : CircuitBreaker) (evs : List CBEvent) : CircuitBreaker :=
  evs.foldl step cb

end Breaker

namespace Dobong

/-- Events observable in the embedded-markup crawler's month loop. -/
inductive TEvent where
  | call (date : String)
  | sleep
deriving DecidableEq

/-- The body of `TennisCourtCrawler.crawlMonth` over its date list: for index
`i`, push `checkAvailability(dates[i])`, then
`if (i < dates.length - 1) await sleep(...)`. -/
def crawlMonthLoop (transport : Transport) : List String → List AvailabilityResult × List TEvent
  | [] => ([], [])
  | [d] => ([checkAvailability transport d], [TEvent.call d])
  | d :: d' :: rest =>
      let (rs, evs) := crawlMonthLoop transport (d' :: rest)
      (checkAvailability transport d :: rs, TEvent.call d :: TEvent.sleep :: evs)

/-- `checkAvailability` as one orchestration attempt seen next to the
crawler's `circuitBreaker` field: the method body never reads or writes the
breaker and unconditionally enters the `try` block issuing transport
requests, so the attempt returns the breaker unchanged and the
issued-a-transport-request flag is constantly `true`. -/
def attempt (cb : Breaker.CircuitBreaker) (transport : Transport) (dateStr : String) :
    AvailabilityResult × Breaker.CircuitBreaker × Bool :=
  (checkAvailability transport dateStr, cb, true)

/-- The month loop with the crawler object's breaker state threaded through
the attempts, also counting how many attempts issued transport requests. -/
def crawlMonthCB (transport : Transport) (cb : Breaker.CircuitBreaker) :
    List String → List AvailabilityResult × Breaker.CircuitBreaker × Nat
  | [] => ([], cb, 0)
  | d :: rest =>
      let (r, cb', issued) := attempt cb transport d
      let (rs, cb'', n) := crawlMonthCB transport cb' rest
      (r :: rs, cb'', (if issued then 1 else 0) + n)

end Dobong

namespace Nowon

/-- Aggregated month results (`MonthResults`). -/
structure MonthResults where
  bul : List CrawlRow
  ma : List CrawlRow
  cho : List CrawlRow
deriving DecidableEq

/-- The facility keys of `MonthResults`. -/
inductive FacKey where
  | bul
  | ma
  | cho
deriving DecidableEq

/-- `allResults[name].push(...rows)`. -/
def pushRows (m : MonthResults) (k : FacKey) (rows : List CrawlRow) : MonthResults :=
  match k with
  | FacKey.bul => { m with bul := m.bul ++ rows }
  | FacKey.ma => { m with ma := m.ma ++ rows }
  | FacKey.cho => { m with cho := m.cho ++ rows }

/-- Projection of one facility's accumulated rows. -/
def facRows (m : MonthResults) : FacKey → List CrawlRow
  | FacKey.bul => m.bul
  | FacKey.ma => m.ma
  | FacKey.cho => m.cho

/-- The `facilities` table of `crawlMonth`: `cate2` value and result key. -/
def facilities : List (Nat × FacKey) :=
  [(15, FacKey.bul), (16, FacKey.ma), (17, FacKey.cho)]

/-- The per-pair transport oracle of the tabular crawler: the outcome of
`getTimeList` (whose exceptions escape to `crawlMonth`'s `catch`) and of the
raw reserve-check call (whose exceptions `checkReserve` itself catches). -/
def Oracle := String → Nat → Except String TimeListResponse × Except String CheckReserveResponse

/-- `checkReserve`: the raw call's result, with the `catch` returning `{}`. -/
def checkReserve (raw : Except String CheckReserveResponse) : CheckReserveResponse :=
  match raw with
  | Except.ok r => r
  | Except.error _ => { list := none }

/-- `crawlAvailableTimes` including its two calls: a `getTimeList` error
propagates; otherwise the reserved list is `reserved.list || []` and the pure
row generation runs. -/
def crawlAvailableTimesE (o : Oracle) (pickDate : String) (cate2 : Nat) :
    Except String (List CrawlRow) :=
  match (o pickDate cate2).1 with
  | Except.error e => Except.error e
  | Except.ok res =>
      Except.ok (crawlAvailableTimes res (((checkReserve (o pickDate cate2).2).list).getD [])
        cate2 pickDate)

/-- Events observable in the tabular crawler's month loop. -/
inductive NEvent where
  | call (date : String) (cate2 : Nat)
  | sleep
deriving DecidableEq

/-- The inner `for (const [cate2Val, name] of facilities)` body of
`NowonCrawler.crawlMonth`: call, push the rows and (when `delay > 0`) sleep on
success; on an exception just log and continue — nothing is pushed and no
sleep happens. -/
def pairStep (o : Oracle) (delay : ℚ) (d : String)
    (acc : MonthResults × List NEvent) (fac : Nat × FacKey) : MonthResults × List NEvent :=
  let trace := acc.2 ++ [NEvent.call d fac.1]
  match crawlAvailableTimesE o d fac.1 with
  | Except.ok rows =>
      (pushRows acc.1 fac.2 rows, trace ++ if 0 < delay then [NEvent.sleep] else [])
  | Except.error _ => (acc.1, trace)

/-- `NowonCrawler.crawlMonth` over the date strings its date walk visits. -/
def crawlMonth (o : Oracle) (delay : ℚ) (dates : List String) :
    MonthResults × List NEvent :=
  dates.foldl (fun acc d => facilities.foldl (pairStep o delay d) acc)
    ({ bul := [], ma := [], cho := [] }, [])

/-- One export row: a `CrawlRow` spread together with its facility display
name (`{ ...r, facility }`). -/
structure ExportRow where
  date : String
  court : String
  startTime : String
  endTime : String
  status : String
  facility : String
deriving DecidableEq

/-- Tagging one facility's rows with its display name. -/
def tag (fac : String) (r : CrawlRow) : ExportRow :=
  { date := r.date, court := r.court, startTime := r.startTime, endTime := r.endTime,
    status := r.status, facility := fac }

/-- The concatenation `[...bul, ...ma, ...cho]` tagged with display names. -/
def allDataFull (m : MonthResults) : List ExportRow :=
  m.bul.map (tag "불암산") ++ m.ma.map (tag "마들") ++ m.cho.map (tag "초안산")

/-- The sort comparator of both CSV generators, as the boolean
comparator-is-nonpositive relation: keys are compared in the order
date, facility, court, start time, each as strings. -/
def rowLE (a b : ExportRow) : Bool :=
  if a.date ≠ b.date then decide (a.date < b.date)
  else if a.facility ≠ b.facility then decide (a.facility < b.facility)
  else if a.court ≠ b.court then decide (a.court < b.court)
  else decide (a.startTime ≤ b.startTime)

/-- The sorted data of `generateCSV`.  `Array.prototype.sort` is stable
(ECMAScript 2019) and is modelled by the stable `List.mergeSort`. -/
def sortedFull (m : MonthResults) : List ExportRow :=
  (allDataFull m).mergeSort rowLE

/-- The filtered input of `generateAvailableOnlyCSV`. -/
def allDataAvail (m : MonthResults) : List ExportRow :=
  (allDataFull m).filter (fun r => r.status = "예약가능")

/-- The sorted data of `generateAvailableOnlyCSV`. -/
def sortedAvail (m : MonthResults) : List ExportRow :=
  (allDataAvail m).mergeSort rowLE

/-- One data line of the full CSV. -/
def csvLineFull (r : ExportRow) : String :=
  String.intercalate "," [r.date, r.facility ++ " " ++ r.court, r.startTime, r.endTime, r.status]

/-- One data line of the availability-only CSV. -/
def csvLineAvail (r : ExportRow) : String :=
  String.intercalate "," [r.date, r.facility ++ " " ++ r.court, r.startTime, r.endTime]

/-- `generateCSV`. -/
def generateCSV (m : MonthResults) : String :=
  String.intercalate "\n"
    (String.intercalate "," ["날짜", "코트", "시작시간", "종료시간", "상태"] ::
      (sortedFull m).map csvLineFull)

/-- `generateAvailableOnlyCSV`. -/
def generateAvailableOnlyCSV (m : MonthResults) : String :=
  String.intercalate "\n"
    (String.intercalate "," ["날짜", "코트", "시작시간", "종료시간"] ::
      (sortedAvail m).map csvLineAvail)

/-- The `cate2` value paired with each result key in the `facilities` table. -/
def cateOf : FacKey → Nat
  | FacKey.bul => 15
  | FacKey.ma => 16
  | FacKey.cho => 17

/-- The rows a `(date, cate2)` pair contributes to the month results: the
generated rows on success, nothing on failure. -/
def okRows (o : Oracle) (d : String) (c : Nat) : List CrawlRow :=
  match crawlAvailableTimesE o d c with
  | Except.ok rows => rows
  | Except.error _ => []

/-- The events one `(date, facility)` pair leaves in the trace: its call,
followed by a sleep exactly when the call succeeded and the delay is
positive. -/
def pairEvents (o : Oracle) (delay : ℚ) (d : String) (fac : Nat × FacKey) : List NEvent :=
  NEvent.call d fac.1 ::
    (match crawlAvailableTimesE o d fac.1 with
     | Except.ok _ => if 0 < delay then [NEvent.sleep] else []
     | Except.error _ => [])

/-- The duplicate-sensitive key of a generated row: court label and
zero-padded start text. -/
def slotKey (r : CrawlRow) : String × String := (r.court, r.startTime)

/-- The canonical export order as a proposition: date ascending, then
facility display name, then court label, then slot start time, each compared
lexicographically as strings. -/
def sortOrdered (a b : ExportRow) : Prop :=
  a.date < b.date ∨ (a.date = b.date ∧
    (a.facility < b.facility ∨ (a.facility = b.facility ∧
      (a.court < b.court ∨ (a.court = b.court ∧ a.startTime ≤ b.startTime)))))

/-- Equality on the four sort keys (`endTime`/`status` may differ). -/
def sameSortKey (a b : ExportRow) : Prop :=
  a.date = b.date ∧ a.facility = b.facility ∧ a.court = b.court ∧ a.startTime = b.startTime

/-- The four sort keys as a lexicographically ordered tuple. -/
def sortKey (r : ExportRow) : Lex (String × Lex (String × Lex (String × String))) :=
  toLex (r.date, toLex (r.facility, toLex (r.court, r.startTime)))

end Nowon

namespace Dobong

/-- The slot list extracted from one court block: empty when the markup
fragment is absent, otherwise the parse of its controls. -/
def htmlxSlots (ci : CourtInfo) : List TimeSlot :=
  match ci.htmlx with
  | none => []
  | some cbs => parseTimeSlots cbs

end Dobong

namespace Breaker

theorem step_threshold (cb : CircuitBreaker) (e : CBEvent) :
    (step cb e).failure_threshold = cb.failure_threshold := by
  obtain ⟨ft, rt, fc, lt, st⟩ := cb
  cases e with
  | check now =>
      cases st with
      | CLOSED => rfl
      | OPEN =>
          cases lt with
          | none => rfl
          | some t =>
              simp only [step, isAvailable]
              split <;> rfl
      | HALF_OPEN => rfl
  | success => rfl
  | failure now =>
      simp only [step, recordFailure]

/-- The health invariant: away from `CLOSED`, at least `failure_threshold`
consecutive failures have been counted. -/
def Inv (cb : CircuitBreaker) : Prop :=
  cb.state ≠ CBTag.CLOSED → cb.failure_threshold ≤ cb.failure_count

theorem inv_step {cb : CircuitBreaker} (h : Inv cb) (e : CBEvent) : Inv (step cb e) := by
  obtain ⟨ft, rt, fc, lt, st⟩ := cb
  cases e with
  | check now =>
      cases st with
      | CLOSED => exact h
      | OPEN =>
          cases lt with
          | none => exact h
          | some t =>
              show Inv (isAvailable _ _).2
              simp only [isAvailable]
              split
              · intro _
                exact h (by simp)
              · exact h
      | HALF_OPEN => exact h
  | success =>
      intro hne
      exact absurd rfl hne
  | failure now =>
      intro hne
      simp only [step, recordFailure] at hne ⊢
      by_cases hft : ft ≤ fc + 1
      · exact hft
      · have hst : st ≠ CBTag.CLOSED := by
          simpa [if_neg hft] using hne
        exact Nat.le_succ_of_le (h hst)

theorem inv_run {cb : CircuitBreaker} (h : Inv cb) (evs : List CBEvent) : Inv (run cb evs) := by
  induction evs generalizing cb with
  | nil => exact h
  | cons e rest ih =>
      have := ih (inv_step h e)
      simpa [run, List.foldl_cons] using this

theorem inv_init (ft rt : Nat) : Inv (init ft rt) := by
  intro h
  exact absurd rfl h

/-- Applying failures to a `CLOSED` breaker below the threshold keeps it
`CLOSED` and counts the failures. -/
theorem run_failures_closed (ts : List Nat) : ∀ (cb : CircuitBreaker),
    cb.state = CBTag.CLOSED →
    cb.failure_count + ts.length < cb.failure_threshold →
    (run cb (ts.map CBEvent.failure)).state = CBTag.CLOSED ∧
    (run cb (ts.map CBEvent.failure)).failure_count = cb.failure_count + ts.length ∧
    (run cb (ts.map CBEvent.failure)).failure_threshold = cb.failure_threshold := by
  induction ts with
  | nil =>
      intro cb h1 _
      exact ⟨h1, by simp [run], rfl⟩
  | cons t rest ih =>
      intro cb h1 h2
      obtain ⟨ft, rt, fc, lt, st⟩ := cb
      simp only at h1 h2
      subst h1
      have hlen : fc + (rest.length + 1) < ft := by simpa using h2
      have hlt : ¬ ft ≤ fc + 1 := by omega
      have hstep : step ⟨ft, rt, fc, lt, CBTag.CLOSED⟩ (CBEvent.failure t) =
          ⟨ft, rt, fc + 1, some t, CBTag.CLOSED⟩ := by
        simp [step, recordFailure, hlt]
      have hrun : run ⟨ft, rt, fc, lt, CBTag.CLOSED⟩ ((t :: rest).map CBEvent.failure) =
          run ⟨ft, rt, fc + 1, some t, CBTag.CLOSED⟩ (rest.map CBEvent.failure) := by
        simp only [List.map_cons, run, List.foldl_cons, hstep]
      obtain ⟨a, b, c⟩ := ih ⟨ft, rt, fc + 1, some t, CBTag.CLOSED⟩ rfl (by simp only; omega)
      rw [hrun]
      refine ⟨a, ?_, by rw [c]⟩
      rw [b]
      simp only [List.length_cons]
      omega

end Breaker

/-- C3: the circuit breaker reaches `OPEN` after exactly `failure_threshold`
consecutive recorded failures (fewer leave it `CLOSED`); while `OPEN` and
within `recovery_timeout` of the last failure every availability check is
denied with the state unchanged, and once more than `recovery_timeout`
(in ms) has elapsed the next check is allowed and moves the state to
`HALF_OPEN`; in `HALF_OPEN` the next call is allowed through, a recorded
success resets to `CLOSED` with `failure_count = 0`, and a recorded failure
of a breaker that reached `HALF_OPEN` from the initial state returns it to
`OPEN` with the failure timestamp refreshed. -/
theorem C3_circuit_breaker_lifecycle :
    (∀ ft rt : Nat, ∀ ts : List Nat,
      (ts.length < ft →
        (Breaker.run (Breaker.init ft rt) (ts.map Breaker.CBEvent.failure)).state
          = Breaker.CBTag.CLOSED) ∧
      (0 < ft → ts.length = ft →
        (Breaker.run (Breaker.init ft rt) (ts.map Breaker.CBEvent.failure)).state
          = Breaker.CBTag.OPEN)) ∧
    (∀ cb : Breaker.CircuitBreaker, ∀ now t : Nat,
      cb.state = Breaker.CBTag.OPEN → cb.last_failure_time = some t → 0 < t →
      ((now - t ≤ cb.recovery_timeout * 1000 →
          Breaker.isAvailable cb now = (false, cb)) ∧
       (cb.recovery_timeout * 1000 < now - t →
          Breaker.isAvailable cb now =
            (true, { cb with state := Breaker.CBTag.HALF_OPEN })))) ∧
    (∀ cb : Breaker.CircuitBreaker, ∀ now : Nat, cb.state = Breaker.CBTag.HALF_OPEN →
      Breaker.isAvailable cb now = (true, cb)) ∧
    (∀ cb : Breaker.CircuitBreaker,
      (Breaker.recordSuccess cb).state = Breaker.CBTag.CLOSED ∧
      (Breaker.recordSuccess cb).failure_count = 0) ∧
    (∀ ft rt : Nat, ∀ evs : List Breaker.CBEvent, ∀ now : Nat,
      (Breaker.run (Breaker.init ft rt) evs).state = Breaker.CBTag.HALF_OPEN →
      (Breaker.recordFailure (Breaker.run (Breaker.init ft rt) evs) now).state
          = Breaker.CBTag.OPEN ∧
      (Breaker.recordFailure (Breaker.run (Breaker.init ft rt) evs) now).last_failure_time
          = some now) := by
  refine ⟨?_, ?_, ?_, ?_, ?_⟩
  · intro ft rt ts
    constructor
    · intro hlt
      exact (Breaker.run_failures_closed ts (Breaker.init ft rt) rfl
        (by simpa [Breaker.init] using hlt)).1
    · intro hft hlen
      obtain rfl | ⟨ts', t, rfl⟩ := ts.eq_nil_or_concat
      · simp at hlen
        omega
      · have hlen' : ts'.length + 1 = ft := by simpa using hlen
        obtain ⟨a, b, c⟩ := Breaker.run_failures_closed ts' (Breaker.init ft rt) rfl
          (by simp [Breaker.init]; omega)
        have hsplit : Breaker.run (Breaker.init ft rt) ((ts'.concat t).map Breaker.CBEvent.failure)
            = Breaker.step (Breaker.run (Breaker.init ft rt) (ts'.map Breaker.CBEvent.failure))
                (Breaker.CBEvent.failure t) := by
          simp [Breaker.run, List.concat_eq_append, List.foldl_append]
        rw [hsplit]
        simp only [Breaker.step, Breaker.recordFailure]
        have : (Breaker.run (Breaker.init ft rt)
            (ts'.map Breaker.CBEvent.failure)).failure_threshold ≤
            (Breaker.run (Breaker.init ft rt)
            (ts'.map Breaker.CBEvent.failure)).failure_count + 1 := by
          rw [b, c]
          simp [Breaker.init]
          omega
        simp [this]
  · intro cb now t hst hlt ht
    obtain ⟨ft, rt, fc, l, st⟩ := cb
    simp only at hst hlt
    subst hst
    subst hlt
    refine ⟨fun hle => ?_, fun hgt => ?_⟩
    · simp only at hle
      have h2 : decide (rt * 1000 < now - t) = false := by
        simp only [decide_eq_false_iff_not]
        omega
      simp [Breaker.isAvailable, h2]
    · simp only at hgt
      have h2 : (decide (t ≠ 0) && decide (rt * 1000 < now - t)) = true := by
        simp only [Bool.and_eq_true, decide_eq_true_eq]
        exact ⟨by omega, hgt⟩
      simp only [Breaker.isAvailable, h2]
      simp
  · intro cb now hst
    obtain ⟨ft, rt, fc, l, st⟩ := cb
    simp only at hst
    subst hst
    rfl
  · intro cb
    exact ⟨rfl, rfl⟩
  · intro ft rt evs now hst
    have hinv := Breaker.inv_run (Breaker.inv_init ft rt) evs
    have hle := hinv (by rw [hst]; simp)
    constructor
    · simp only [Breaker.recordFailure]
      have : (Breaker.run (Breaker.init ft rt) evs).failure_threshold ≤
          (Breaker.run (Breaker.init ft rt) evs).failure_count + 1 := by omega
      simp [this]
    · rfl

namespace Crawler

theorem qadd_eq (a b : ℚ) : qadd a b = a + b := by
  have ha : (a.den : ℚ) ≠ 0 := by exact_mod_cast a.den_nz
  have hb : (b.den : ℚ) ≠ 0 := by exact_mod_cast b.den_nz
  conv_rhs => rw [← Rat.num_div_den a, ← Rat.num_div_den b]
  rw [qadd, Rat.mkRat_eq_div, div_add_div _ _ ha hb]
  push_cast
  ring_nf

end Crawler

namespace Nowon

/-- The rows generated by the slot loop are exactly one `mkRow` per slot
index `k < n` and court `c` of the roster, at accumulator value
`start + k * unit`. -/
theorem mem_genRows (pickDate : String) (resSet courts : List String) (pfx : String) :
    ∀ (n : Nat) (start unit : ℚ) (r : CrawlRow),
    (r ∈ genRows pickDate resSet courts pfx start unit n ↔
      ∃ k : Nat, k < n ∧ ∃ c ∈ courts,
        r = mkRow pickDate resSet pfx (startText (start + (k : ℚ) * unit))
              (startText (start + ((k : ℚ) + 1) * unit)) c) := by
  intro n
  induction n with
  | zero =>
      intro start unit r
      simp [genRows]
  | succ m ih =>
      intro start unit r
      simp only [genRows, Crawler.qadd_eq, List.mem_append, List.mem_map]
      constructor
      · rintro (⟨c, hc, rfl⟩ | hr)
        · refine ⟨0, Nat.succ_pos m, c, hc, ?_⟩
          have e1 : start + ((0 : Nat) : ℚ) * unit = start := by push_cast; ring
          have e2 : start + (((0 : Nat) : ℚ) + 1) * unit = start + unit := by push_cast; ring
          rw [e1, e2]
        · obtain ⟨k, hk, c, hc, hr'⟩ := (ih (start + unit) unit r).1 hr
          refine ⟨k + 1, Nat.succ_lt_succ hk, c, hc, ?_⟩
          have e1 : start + unit + (k : ℚ) * unit = start + (((k + 1 : Nat)) : ℚ) * unit := by
            push_cast; ring
          have e2 : start + unit + ((k : ℚ) + 1) * unit
              = start + ((((k + 1 : Nat)) : ℚ) + 1) * unit := by
            push_cast; ring
          rw [hr', e1, e2]
      · rintro ⟨k, hk, c, hc, rfl⟩
        cases k with
        | zero =>
            left
            refine ⟨c, hc, ?_⟩
            have e1 : start + ((0 : Nat) : ℚ) * unit = start := by push_cast; ring
            have e2 : start + (((0 : Nat) : ℚ) + 1) * unit = start + unit := by push_cast; ring
            rw [e1, e2]
        | succ j =>
            right
            apply (ih (start + unit) unit _).2
            refine ⟨j, Nat.lt_of_succ_lt_succ hk, c, hc, ?_⟩
            have e1 : start + unit + (j : ℚ) * unit = start + (((j + 1 : Nat)) : ℚ) * unit := by
              push_cast; ring
            have e2 : start + unit + ((j : ℚ) + 1) * unit
                = start + ((((j + 1 : Nat)) : ℚ) + 1) * unit := by
              push_cast; ring
            rw [e1, e2]

end Nowon

/-- C4: every row generated for a tabular-format input belongs to a roster
court, and its status flag is determined by reserved-key membership: the row
is marked `예약불가` (not bookable) iff the key
`"{sequence_id},{start}"` built from the court's sequence id and the row's
zero-padded start text occurs in the reserved-key set, and marked `예약가능`
(bookable) iff it does not. -/
theorem C4_tabular_available_iff_not_reserved :
    ∀ (res : Nowon.TimeListResponse) (reserved : List Nowon.ReservedItem) (cate2 : Nat)
      (pickDate : String) (r : Nowon.CrawlRow),
    r ∈ Nowon.crawlAvailableTimes res reserved cate2 pickDate →
    ∃ c ∈ Nowon.courtsFor cate2,
      r.court = Nowon.courtLabel (Nowon.prefixFor cate2) c ∧
      (r.status = "예약불가" ↔
        (Nowon.buildReservedSet reserved).contains
          (Nowon.courtSeqOf c ++ "," ++ r.startTime) = true) ∧
      (r.status = "예약가능" ↔
        (Nowon.buildReservedSet reserved).contains
          (Nowon.courtSeqOf c ++ "," ++ r.startTime) = false) := by
  intro res reserved cate2 pickDate r hr
  rw [Nowon.crawlAvailableTimes, Nowon.mem_genRows] at hr
  obtain ⟨k, -, c, hc, rfl⟩ := hr
  refine ⟨c, hc, rfl, ?_, ?_⟩ <;>
    by_cases hmem : (Nowon.buildReservedSet reserved).contains
      (Nowon.courtSeqOf c ++ "," ++
        Nowon.startText (res.useBeginHour + (k : ℚ) * res.hourUnit)) = true <;>
    simp [Nowon.mkRow, hmem]

/-- Witness for C4: with schedule `{start 8, unit 1, count 1}` and the
reserved entry `(18, "08:00")` at facility 15, the generated row for court 1
is `예약불가` and its key is in the reserved set. -/
theorem C4_tabular_available_iff_not_reserved_witness :
    ∃ c ∈ Nowon.courtsFor 15,
      (Nowon.CrawlRow.mk "d" "1코트" "08:00" "09:00" "예약불가").court
        = Nowon.courtLabel (Nowon.prefixFor 15) c ∧
      ((Nowon.CrawlRow.mk "d" "1코트" "08:00" "09:00" "예약불가").status = "예약불가" ↔
        (Nowon.buildReservedSet [⟨"18", some "08:00"⟩]).contains
          (Nowon.courtSeqOf c ++ "," ++
            (Nowon.CrawlRow.mk "d" "1코트" "08:00" "09:00" "예약불가").startTime) = true) ∧
      ((Nowon.CrawlRow.mk "d" "1코트" "08:00" "09:00" "예약불가").status = "예약가능" ↔
        (Nowon.buildReservedSet [⟨"18", some "08:00"⟩]).contains
          (Nowon.courtSeqOf c ++ "," ++
            (Nowon.CrawlRow.mk "d" "1코트" "08:00" "09:00" "예약불가").startTime) = false) :=
  C4_tabular_available_iff_not_reserved ⟨8, 1, "1"⟩ [⟨"18", some "08:00"⟩] 15 "d"
    (Nowon.CrawlRow.mk "d" "1코트" "08:00" "09:00" "예약불가") (by decide)

/-- Witness for C3 at threshold 2, timeout 1 s: two failures open the
breaker, one leaves it closed; the open breaker denies at 6 ms and allows at
2000 ms moving to `HALF_OPEN`; `HALF_OPEN` allows, success closes, and a
failure of a breaker driven to `HALF_OPEN` reopens it with a fresh
timestamp. -/
theorem C3_circuit_breaker_lifecycle_witness :
    (Breaker.run (Breaker.init 2 1) ([5].map Breaker.CBEvent.failure)).state
      = Breaker.CBTag.CLOSED ∧
    (Breaker.run (Breaker.init 2 1) ([5, 7].map Breaker.CBEvent.failure)).state
      = Breaker.CBTag.OPEN ∧
    Breaker.isAvailable ⟨2, 1, 2, some 5, Breaker.CBTag.OPEN⟩ 6
      = (false, ⟨2, 1, 2, some 5, Breaker.CBTag.OPEN⟩) ∧
    Breaker.isAvailable ⟨2, 1, 2, some 5, Breaker.CBTag.OPEN⟩ 2000
      = (true, ⟨2, 1, 2, some 5, Breaker.CBTag.HALF_OPEN⟩) ∧
    Breaker.isAvailable ⟨2, 1, 2, some 5, Breaker.CBTag.HALF_OPEN⟩ 9
      = (true, ⟨2, 1, 2, some 5, Breaker.CBTag.HALF_OPEN⟩) ∧
    (Breaker.recordSuccess ⟨2, 1, 2, some 5, Breaker.CBTag.HALF_OPEN⟩).state
      = Breaker.CBTag.CLOSED ∧
    (Breaker.recordSuccess ⟨2, 1, 2, some 5, Breaker.CBTag.HALF_OPEN⟩).failure_count = 0 ∧
    (Breaker.recordFailure (Breaker.run (Breaker.init 2 1)
        [Breaker.CBEvent.failure 1, Breaker.CBEvent.failure 2,
         Breaker.CBEvent.check 2000]) 3000).state = Breaker.CBTag.OPEN ∧
    (Breaker.recordFailure (Breaker.run (Breaker.init 2 1)
        [Breaker.CBEvent.failure 1, Breaker.CBEvent.failure 2,
         Breaker.CBEvent.check 2000]) 3000).last_failure_time = some 3000 := by
  refine ⟨(C3_circuit_breaker_lifecycle.1 2 1 [5]).1 (by decide),
    (C3_circuit_breaker_lifecycle.1 2 1 [5, 7]).2 (by decide) (by decide),
    (C3_circuit_breaker_lifecycle.2.1 ⟨2, 1, 2, some 5, Breaker.CBTag.OPEN⟩ 6 5 rfl rfl
      (by decide)).1 (by decide),
    (C3_circuit_breaker_lifecycle.2.1 ⟨2, 1, 2, some 5, Breaker.CBTag.OPEN⟩ 2000 5 rfl rfl
      (by decide)).2 (by decide),
    C3_circuit_breaker_lifecycle.2.2.1 ⟨2, 1, 2, some 5, Breaker.CBTag.HALF_OPEN⟩ 9 rfl,
    (C3_circuit_breaker_lifecycle.2.2.2.1 ⟨2, 1, 2, some 5, Breaker.CBTag.HALF_OPEN⟩).1,
    (C3_circuit_breaker_lifecycle.2.2.2.1 ⟨2, 1, 2, some 5, Breaker.CBTag.HALF_OPEN⟩).2,
    (C3_circuit_breaker_lifecycle.2.2.2.2 2 1
      [Breaker.CBEvent.failure 1, Breaker.CBEvent.failure 2, Breaker.CBEvent.check 2000]
      3000 (by decide)).1,
    (C3_circuit_breaker_lifecycle.2.2.2.2 2 1
      [Breaker.CBEvent.failure 1, Breaker.CBEvent.failure 2, Breaker.CBEvent.check 2000]
      3000 (by decide)).2⟩

/-- C10: a reserved-list entry with a missing begin-time field is defaulted
to `"00:00"` and keyed `"{cseq},00:00"`; the key enters the reserved set, and
a generated slot whose court sequence id and start text match such a key is
marked `예약불가` (reserved), so the entry is neither ignored nor a failure. -/
theorem C10_missing_begin_time_defaults :
    (∀ r : Nowon.ReservedItem, r.useTimeBegin = none →
      Nowon.reservedKey r = r.cseq ++ ",00:00") ∧
    (∀ (r : Nowon.ReservedItem) (l : List Nowon.ReservedItem), r ∈ l →
      (Nowon.buildReservedSet l).contains (Nowon.reservedKey r) = true) ∧
    (∀ (pickDate : String) (resSet : List String) (pfx c startTxt endTxt : String),
      resSet.contains (Nowon.courtSeqOf c ++ "," ++ startTxt) = true →
      (Nowon.mkRow pickDate resSet pfx startTxt endTxt c).status = "예약불가") := by
  refine ⟨?_, ?_, ?_⟩
  · intro r h
    have hdig : Nowon.isAllDigits "00:00" = false := by decide
    simp only [Nowon.reservedKey, Crawler.jsOrDefault, h, hdig, Bool.false_eq_true,
      if_false]
    rw [String.append_assoc]
    rfl
  · intro r l hrl
    exact List.elem_eq_true_of_mem (List.mem_map_of_mem Nowon.reservedKey hrl)
  · intro pickDate resSet pfx c startTxt endTxt h
    simp only [Nowon.mkRow, h, if_true]

/-- Witness for C10: the entry `{cseq: "18"}` with no begin time is keyed
`"18,00:00"`, that key is contained in the built set, and the midnight slot
of court `1코트@18` is marked `예약불가` against a set holding the key. -/
theorem C10_missing_begin_time_defaults_witness :
    Nowon.reservedKey ⟨"18", none⟩ = "18" ++ ",00:00" ∧
    (Nowon.buildReservedSet [⟨"18", none⟩]).contains (Nowon.reservedKey ⟨"18", none⟩) = true ∧
    (Nowon.mkRow "2025-10-01" ["18,00:00"] "" "00:00" "01:00" "1코트@18").status = "예약불가" :=
  ⟨C10_missing_begin_time_defaults.1 ⟨"18", none⟩ rfl,
   C10_missing_begin_time_defaults.2.1 ⟨"18", none⟩ [⟨"18", none⟩] (by decide),
   C10_missing_begin_time_defaults.2.2 "2025-10-01" ["18,00:00"] "" "1코트@18" "00:00" "01:00"
     (by decide)⟩

/-- C6: the embedded-markup parser tolerates malformed or missing
sub-fields: the parse result always has status `success` and no error; a
missing or unparsable court-list payload yields an empty court list; each
court block's slots are computed from that block alone (a block without a
markup fragment contributes an empty slot list while the others are still
parsed); and the tabular crawler's failed reserve-check call contributes an
empty reserved list instead of failing. -/
theorem C6_malformed_subfields_tolerated :
    ∀ (dateStr : String) (p : Dobong.PlayPayload),
      (Dobong.parseAvailabilityData dateStr p).status = "success" ∧
      (Dobong.parseAvailabilityData dateStr p).error = none ∧
      (p = none → (Dobong.parseAvailabilityData dateStr p).courts = []) ∧
      (∀ e, p = some (Except.error e) → (Dobong.parseAvailabilityData dateStr p).courts = []) ∧
      ((Dobong.parseAvailabilityData dateStr p).courts.map Dobong.CourtData.time_slots
        = (Dobong.parsePlayData p).map Dobong.htmlxSlots) ∧
      (∀ e, ((Nowon.checkReserve (Except.error e)).list).getD ([] : List Nowon.ReservedItem)
        = []) := by
  intro dateStr p
  have hmap : ∀ (l : List Dobong.CourtInfo),
      ((l.enum.map (fun ic => Dobong.mkCourtData ic.1 ic.2)).map Dobong.CourtData.time_slots)
        = l.map Dobong.htmlxSlots := by
    intro l
    rw [List.map_map]
    have h1 : (Dobong.CourtData.time_slots ∘ fun ic : Nat × Dobong.CourtInfo =>
        Dobong.mkCourtData ic.1 ic.2) = (fun ic : Nat × Dobong.CourtInfo =>
        Dobong.htmlxSlots ic.2) := by
      funext ic
      rfl
    rw [h1]
    have h2 : (fun ic : Nat × Dobong.CourtInfo => Dobong.htmlxSlots ic.2)
        = Dobong.htmlxSlots ∘ Prod.snd := rfl
    rw [h2, ← List.map_map, List.enum_map_snd]
  refine ⟨rfl, rfl, ?_, ?_, ?_, fun _ => rfl⟩
  · intro h
    subst h
    rfl
  · intro e h
    subst h
    rfl
  · exact hmap (Dobong.parsePlayData p)

/-- Witness for C6: on a payload with one block lacking a markup fragment
and one block carrying a single enabled control, the parse succeeds, the
malformed block yields an empty slot list, and the well-formed block still
parses to its one slot. -/
theorem C6_malformed_subfields_tolerated_witness :
    (Dobong.parseAvailabilityData "20251015"
      (some (Except.ok [⟨some "A", none, none, none, none⟩,
        ⟨some "B", none, none, none, some [⟨"09:00", false⟩]⟩]))).status = "success" ∧
    (Dobong.parseAvailabilityData "20251015" (some (Except.error ()))).courts = [] ∧
    ((Dobong.parseAvailabilityData "20251015"
      (some (Except.ok [⟨some "A", none, none, none, none⟩,
        ⟨some "B", none, none, none, some [⟨"09:00", false⟩]⟩]))).courts.map
          Dobong.CourtData.time_slots
      = [[], [⟨"08:00", true, "", "available"⟩]]) := by
  refine ⟨(C6_malformed_subfields_tolerated "20251015" _).1, ?_, ?_⟩
  · exact (C6_malformed_subfields_tolerated "20251015" _).2.2.2.1 () rfl
  · rw [(C6_malformed_subfields_tolerated "20251015" _).2.2.2.2.1]
    decide

/-- C5 (counterexample): the claim that the embedded-markup strategy's output
never contains a slot whose time is `06:00` is false: a control advertising
`07:00` is decremented and emitted as `06:00`. -/
theorem C5_counterexample_0600_in_output :
    ¬ (∀ (controls : List Dobong.Checkbox) (s : Dobong.TimeSlot),
        s ∈ Dobong.parseTimeSlots controls → s.time ≠ "06:00") := by
  intro h
  exact h [⟨"07:00", false⟩] ⟨"06:00", true, "", "available"⟩ (by decide) rfl

/-- C5 (amended): a control advertising `06:00` is dropped as a placeholder
— no output slot derives from it — and every emitted slot's rendered hour is
the control's advertised hour decremented by one when it is ≥ 7 (unchanged
below 7); consequently a control advertising `07:00` is emitted with the
label `06:00`, so the literal text `06:00` can appear in the output. -/
theorem C5_hour_correction :
    (∀ cb : Dobong.Checkbox, ∀ hs ms : String,
      Dobong.matchTime cb.value = some (hs, ms) →
      Crawler.digitsToNat hs.data = 6 → ms = "00" →
      Dobong.slotOfCheckbox cb = none) ∧
    (∀ (controls : List Dobong.Checkbox) (s : Dobong.TimeSlot),
      s ∈ Dobong.parseTimeSlots controls →
      ∃ cb ∈ controls, ∃ hs ms : String,
        Dobong.matchTime cb.value = some (hs, ms) ∧
        ¬(Crawler.digitsToNat hs.data = 6 ∧ ms = "00") ∧
        s.time = Crawler.padTwoNat
          (if 7 ≤ Crawler.digitsToNat hs.data then Crawler.digitsToNat hs.data - 1
           else Crawler.digitsToNat hs.data) ++ ":" ++ ms ∧
        s.available = !cb.disabled) := by
  constructor
  · intro cb hs ms hmt h6 hms
    subst hms
    simp [Dobong.slotOfCheckbox, hmt, h6]
  · intro controls s hs
    rw [Dobong.parseTimeSlots, List.mem_filterMap] at hs
    obtain ⟨cb, hcb, hsm⟩ := hs
    refine ⟨cb, hcb, ?_⟩
    unfold Dobong.slotOfCheckbox at hsm
    rcases hmt : Dobong.matchTime cb.value with - | ⟨hstr, mstr⟩
    · rw [hmt] at hsm
      cases hsm
    · rw [hmt] at hsm
      simp only at hsm
      refine ⟨hstr, mstr, rfl, ?_⟩
      by_cases h6 : Crawler.digitsToNat hstr.data = 6 ∧ mstr = "00"
      · rw [if_pos (by simp [h6.1, h6.2])] at hsm
        cases hsm
      · rw [if_neg (by
          simp only [Bool.and_eq_true, decide_eq_true_eq]
          intro hcontra
          exact h6 ⟨hcontra.1, hcontra.2⟩)] at hsm
        have heq := Option.some_inj.mp hsm
        subst heq
        exact ⟨h6, rfl, rfl⟩

/-- Witness for C5: the `06:00` control is dropped; a disabled `14:00`
control is emitted as the slot `13:00`; and a `07:00` control is emitted as
`06:00`. -/
theorem C5_hour_correction_witness :
    Dobong.slotOfCheckbox ⟨"06:00", false⟩ = none ∧
    (∃ cb ∈ [(⟨"14:00", true⟩ : Dobong.Checkbox)], ∃ hs ms : String,
      Dobong.matchTime cb.value = some (hs, ms) ∧
      ¬(Crawler.digitsToNat hs.data = 6 ∧ ms = "00") ∧
      (Dobong.TimeSlot.mk "13:00" false "" "disabled").time = Crawler.padTwoNat
        (if 7 ≤ Crawler.digitsToNat hs.data then Crawler.digitsToNat hs.data - 1
         else Crawler.digitsToNat hs.data) ++ ":" ++ ms ∧
      (Dobong.TimeSlot.mk "13:00" false "" "disabled").available = !cb.disabled) ∧
    (∃ cb ∈ [(⟨"07:00", false⟩ : Dobong.Checkbox)], ∃ hs ms : String,
      Dobong.matchTime cb.value = some (hs, ms) ∧
      ¬(Crawler.digitsToNat hs.data = 6 ∧ ms = "00") ∧
      (Dobong.TimeSlot.mk "06:00" true "" "available").time = Crawler.padTwoNat
        (if 7 ≤ Crawler.digitsToNat hs.data then Crawler.digitsToNat hs.data - 1
         else Crawler.digitsToNat hs.data) ++ ":" ++ ms ∧
      (Dobong.TimeSlot.mk "06:00" true "" "available").available = !cb.disabled) :=
  ⟨C5_hour_correction.1 ⟨"06:00", false⟩ "06" "00" (by decide) (by decide) rfl,
   C5_hour_correction.2 [⟨"14:00", true⟩] ⟨"13:00", false, "", "disabled"⟩ (by decide),
   C5_hour_correction.2 [⟨"07:00", false⟩] ⟨"06:00", true, "", "available"⟩ (by decide)⟩

/-- C2 (counterexample): the claim that every attempt first consults the
circuit breaker is false on the code.  With the crawler's breaker in a
denying state (`OPEN`, failure 1 ms ago, timeout 600 s — `isAvailable` is
`false`) and a failing transport, the attempt still issues the transport
request, records the plain error result rather than a breaker-synthesized
one, and leaves the breaker state untouched (the failure is not fed back). -/
theorem C2_counterexample_breaker_ignored :
    (Breaker.isAvailable ⟨5, 600, 5, some 1, Breaker.CBTag.OPEN⟩ 2).1 = false ∧
    (Dobong.attempt ⟨5, 600, 5, some 1, Breaker.CBTag.OPEN⟩
        (fun _ => Except.error "timeout") "20251015").2.2 = true ∧
    (Dobong.attempt ⟨5, 600, 5, some 1, Breaker.CBTag.OPEN⟩
        (fun _ => Except.error "timeout") "20251015").2.1
      = ⟨5, 600, 5, some 1, Breaker.CBTag.OPEN⟩ ∧
    (Dobong.attempt ⟨5, 600, 5, some 1, Breaker.CBTag.OPEN⟩
        (fun _ => Except.error "timeout") "20251015").1
      = Dobong.errorResult "20251015" "timeout" :=
  ⟨by decide, rfl, rfl, rfl⟩

/-- C2 (amended): the embedded-markup crawler constructs a circuit breaker
but never consults or updates it: over any month run, every date issues its
transport attempt regardless of the breaker state (the attempt count equals
the number of dates), the per-date results are exactly `checkAvailability`
of each date independent of the breaker, and the breaker leaves the run in
the state it entered with. -/
theorem C2_breaker_never_consulted :
    ∀ (transport : Dobong.Transport) (cb : Breaker.CircuitBreaker) (dates : List String),
      (Dobong.crawlMonthCB transport cb dates).2.1 = cb ∧
      (Dobong.crawlMonthCB transport cb dates).2.2 = dates.length ∧
      (Dobong.crawlMonthCB transport cb dates).1
        = dates.map (Dobong.checkAvailability transport) := by
  intro transport cb dates
  induction dates with
  | nil => exact ⟨rfl, rfl, rfl⟩
  | cons d rest ih =>
      obtain ⟨h1, h2, h3⟩ := ih
      refine ⟨?_, ?_, ?_⟩ <;>
        simp [Dobong.crawlMonthCB, Dobong.attempt, h1, h2, h3, Nat.add_comm]

namespace Nowon

theorem facRows_pushRows (m : MonthResults) (k k' : FacKey) (rows : List CrawlRow) :
    facRows (pushRows m k rows) k' = facRows m k' ++ (if k = k' then rows else []) := by
  cases k <;> cases k' <;> simp [pushRows, facRows]

theorem pairStep_facRows (o : Oracle) (delay : ℚ) (d : String)
    (acc : MonthResults × List NEvent) (fac : Nat × FacKey) (k : FacKey) :
    facRows (pairStep o delay d acc fac).1 k
      = facRows acc.1 k ++ (if fac.2 = k then okRows o d fac.1 else []) := by
  cases h : crawlAvailableTimesE o d fac.1 with
  | ok rows => simp [pairStep, okRows, h, facRows_pushRows]
  | error e => simp [pairStep, okRows, h]

theorem innerFold_facRows (o : Oracle) (delay : ℚ) (d : String)
    (acc : MonthResults × List NEvent) (k : FacKey) :
    facRows (facilities.foldl (pairStep o delay d) acc).1 k
      = facRows acc.1 k ++ okRows o d (cateOf k) := by
  cases k <;>
    simp [facilities, List.foldl_cons, List.foldl_nil, pairStep_facRows, cateOf]

theorem crawlMonth_facRows (o : Oracle) (delay : ℚ) (dates : List String) (k : FacKey) :
    facRows (crawlMonth o delay dates).1 k
      = dates.flatMap (fun d => okRows o d (cateOf k)) := by
  have h : ∀ (acc : MonthResults × List NEvent),
      facRows (dates.foldl (fun a d => facilities.foldl (pairStep o delay d) a) acc).1 k
        = facRows acc.1 k ++ dates.flatMap (fun d => okRows o d (cateOf k)) := by
    induction dates with
    | nil => intro acc; simp
    | cons d rest ih =>
        intro acc
        simp only [List.foldl_cons, List.flatMap_cons]
        rw [ih, innerFold_facRows, List.append_assoc]
  have h0 := h ({ bul := [], ma := [], cho := [] }, [])
  rw [crawlMonth, h0]
  cases k <;> rfl

end Nowon

namespace Dobong

theorem crawlMonthLoop_spec (transport : Transport) : ∀ dates : List String,
    (crawlMonthLoop transport dates).1 = dates.map (checkAvailability transport) ∧
    (crawlMonthLoop transport dates).2
      = (dates.map TEvent.call).intersperse TEvent.sleep := by
  intro dates
  induction dates with
  | nil => exact ⟨rfl, rfl⟩
  | cons d rest ih =>
      cases rest with
      | nil => exact ⟨rfl, rfl⟩
      | cons d' rest' =>
          obtain ⟨h1, h2⟩ := ih
          constructor
          · simp [crawlMonthLoop, h1]
          · simp [crawlMonthLoop, h2]

end Dobong

/-- C1 (counterexample): the claim that every crawl run records an entry for
every requested `(date, facility)` pair (error-marked on failure) is false
for the tabular crawler: with an oracle failing exactly the `마들`
(`cate2 = 16`) call, the run's `ma` bucket is empty — the failed pair leaves
no entry of any kind (a `CrawlRow` has no error form) — while the other two
facilities of the same date are still crawled. -/
theorem C1_counterexample_nowon_silent_omission :
    (Nowon.crawlMonth
      (fun _ c => if c = 16 then (Except.error "boom", Except.ok ⟨none⟩)
        else (Except.ok ⟨8, 1, "1"⟩, Except.ok ⟨none⟩)) 1 ["2025-10-01"]).1.ma = [] ∧
    (Nowon.crawlMonth
      (fun _ c => if c = 16 then (Except.error "boom", Except.ok ⟨none⟩)
        else (Except.ok ⟨8, 1, "1"⟩, Except.ok ⟨none⟩)) 1 ["2025-10-01"]).1.bul.length = 3 ∧
    (Nowon.crawlMonth
      (fun _ c => if c = 16 then (Except.error "boom", Except.ok ⟨none⟩)
        else (Except.ok ⟨8, 1, "1"⟩, Except.ok ⟨none⟩)) 1 ["2025-10-01"]).1.cho.length = 4 := by
  refine ⟨?_, ?_, ?_⟩ <;> decide

/-- C1 (amended): the embedded-markup crawler's run terminates with exactly
one `DailyResult` per requested date, in order — error-marked with the
message and an empty court list when the transport failed — so no date is
omitted there.  The tabular crawler's run also terminates and continues past
failures, but each facility bucket holds exactly the successful pairs' rows:
a failed `(date, facility)` pair appends nothing, so it is absent from the
output rather than error-marked. -/
theorem C1_every_pair_accounted :
    (∀ (transport : Dobong.Transport) (dates : List String),
      (Dobong.crawlMonthLoop transport dates).1
        = dates.map (Dobong.checkAvailability transport) ∧
      (∀ d e, transport d = Except.error e →
        (Dobong.checkAvailability transport d).status = "error" ∧
        (Dobong.checkAvailability transport d).date = d ∧
        (Dobong.checkAvailability transport d).error = some e ∧
        (Dobong.checkAvailability transport d).courts = []) ∧
      (∀ d p, transport d = Except.ok p →
        (Dobong.checkAvailability transport d).status = "success")) ∧
    (∀ (o : Nowon.Oracle) (delay : ℚ) (dates : List String) (k : Nowon.FacKey),
      Nowon.facRows (Nowon.crawlMonth o delay dates).1 k
        = dates.flatMap (fun d => Nowon.okRows o d (Nowon.cateOf k))) := by
  constructor
  · intro transport dates
    refine ⟨(Dobong.crawlMonthLoop_spec transport dates).1, ?_, ?_⟩
    · intro d e he
      rw [Dobong.checkAvailability, he]
      exact ⟨rfl, rfl, rfl, rfl⟩
    · intro d p hp
      rw [Dobong.checkAvailability, hp]
      rfl
  · exact Nowon.crawlMonth_facRows

/-- Witness for C1: a run over two dates whose transport fails on the first
date only yields one error-marked and one success result in order; and for
the tabular side, the `ma` bucket of the counterexample oracle is the
flatMap of per-date successful rows (empty here). -/
theorem C1_every_pair_accounted_witness :
    (Dobong.crawlMonthLoop
        (fun d => if d = "20251001" then Except.error "down" else Except.ok none)
        ["20251001", "20251002"]).1
      = [Dobong.checkAvailability
          (fun d => if d = "20251001" then Except.error "down" else Except.ok none) "20251001",
         Dobong.checkAvailability
          (fun d => if d = "20251001" then Except.error "down" else Except.ok none) "20251002"] ∧
    (Dobong.checkAvailability
        (fun d => if d = "20251001" then Except.error "down" else Except.ok none)
        "20251001").status = "error" ∧
    (Dobong.checkAvailability
        (fun d => if d = "20251001" then Except.error "down" else Except.ok none)
        "20251002").status = "success" ∧
    Nowon.facRows (Nowon.crawlMonth
        (fun _ c => if c = 16 then (Except.error "boom", Except.ok ⟨none⟩)
          else (Except.ok ⟨8, 1, "1"⟩, Except.ok ⟨none⟩)) 1 ["2025-10-01"]).1 Nowon.FacKey.ma
      = ["2025-10-01"].flatMap (fun d => Nowon.okRows
          (fun _ c => if c = 16 then (Except.error "boom", Except.ok ⟨none⟩)
            else (Except.ok ⟨8, 1, "1"⟩, Except.ok ⟨none⟩)) d (Nowon.cateOf Nowon.FacKey.ma)) :=
  ⟨(C1_every_pair_accounted.1 _ ["20251001", "20251002"]).1,
   ((C1_every_pair_accounted.1 _ ["20251001", "20251002"]).2.1 "20251001" "down" rfl).1,
   (C1_every_pair_accounted.1 _ ["20251001", "20251002"]).2.2 "20251002" none rfl,
   C1_every_pair_accounted.2 _ 1 ["2025-10-01"] Nowon.FacKey.ma⟩

namespace Nowon

theorem pairStep_trace (o : Oracle) (delay : ℚ) (d : String)
    (acc : MonthResults × List NEvent) (fac : Nat × FacKey) :
    (pairStep o delay d acc fac).2 = acc.2 ++ pairEvents o delay d fac := by
  cases h : crawlAvailableTimesE o d fac.1 with
  | ok rows => simp [pairStep, pairEvents, h]
  | error e => simp [pairStep, pairEvents, h]

theorem innerFold_trace (o : Oracle) (delay : ℚ) (d : String)
    (acc : MonthResults × List NEvent) :
    (facilities.foldl (pairStep o delay d) acc).2
      = acc.2 ++ facilities.flatMap (pairEvents o delay d) := by
  simp [facilities, List.foldl_cons, List.foldl_nil, pairStep_trace, List.append_assoc]

theorem crawlMonth_trace (o : Oracle) (delay : ℚ) (dates : List String) :
    (crawlMonth o delay dates).2
      = dates.flatMap (fun d => facilities.flatMap (pairEvents o delay d)) := by
  have h : ∀ (acc : MonthResults × List NEvent),
      (dates.foldl (fun a d => facilities.foldl (pairStep o delay d) a) acc).2
        = acc.2 ++ dates.flatMap (fun d => facilities.flatMap (pairEvents o delay d)) := by
    induction dates with
    | nil => intro acc; simp
    | cons d rest ih =>
        intro acc
        simp only [List.foldl_cons, List.flatMap_cons]
        rw [ih, innerFold_trace, List.append_assoc]
  have h0 := h ({ bul := [], ma := [], cho := [] }, [])
  rw [crawlMonth, h0, List.nil_append]

end Nowon

/-- C9 (counterexample): the claim that the orchestrator sleeps after each
attempted pair (success or failure) and never after the very last pair is
false for the tabular crawler: with every call succeeding the trace ends in
a sleep after the final `(date, facility)` pair, and with the `마들` call
failing no sleep follows that failed pair. -/
theorem C9_counterexample_nowon_sleep :
    (Nowon.crawlMonth (fun _ _ => (Except.ok ⟨8, 1, "1"⟩, Except.ok ⟨none⟩)) 1
        ["2025-10-01"]).2
      = [Nowon.NEvent.call "2025-10-01" 15, Nowon.NEvent.sleep,
         Nowon.NEvent.call "2025-10-01" 16, Nowon.NEvent.sleep,
         Nowon.NEvent.call "2025-10-01" 17, Nowon.NEvent.sleep] ∧
    (Nowon.crawlMonth
        (fun _ c => if c = 16 then (Except.error "boom", Except.ok ⟨none⟩)
          else (Except.ok ⟨8, 1, "1"⟩, Except.ok ⟨none⟩)) 1 ["2025-10-01"]).2
      = [Nowon.NEvent.call "2025-10-01" 15, Nowon.NEvent.sleep,
         Nowon.NEvent.call "2025-10-01" 16,
         Nowon.NEvent.call "2025-10-01" 17, Nowon.NEvent.sleep] := by
  exact ⟨by decide, by decide⟩

/-- C9 (amended): the embedded-markup crawler's trace is exactly the calls
in date order with one sleep between consecutive dates and none after the
last; the tabular crawler's trace is, per `(date, facility)` pair, the call
followed by a sleep exactly when that pair's call succeeded and the delay is
positive — so a failed pair is not followed by a sleep and the final
successful pair is. -/
theorem C9_sleep_between_pairs :
    (∀ (transport : Dobong.Transport) (dates : List String),
      (Dobong.crawlMonthLoop transport dates).2
        = (dates.map Dobong.TEvent.call).intersperse Dobong.TEvent.sleep) ∧
    (∀ (o : Nowon.Oracle) (delay : ℚ) (dates : List String),
      (Nowon.crawlMonth o delay dates).2
        = dates.flatMap (fun d => Nowon.facilities.flatMap (Nowon.pairEvents o delay d))) :=
  ⟨fun transport dates => (Dobong.crawlMonthLoop_spec transport dates).2,
   Nowon.crawlMonth_trace⟩

namespace Nowon

theorem rowLE_iff (a b : ExportRow) : rowLE a b = true ↔ sortOrdered a b := by
  unfold rowLE sortOrdered
  by_cases h1 : a.date = b.date
  · simp only [h1, ne_eq, not_true_eq_false, if_false, lt_self_iff_false, false_or,
      true_and, if_neg (by simp : ¬ True = False)]
    by_cases h2 : a.facility = b.facility
    · simp only [h2, lt_self_iff_false, false_or, true_and]
      by_cases h3 : a.court = b.court
      · simp [h3]
      · simp [h3]
    · simp [h2]
  · simp [h1]

theorem sortOrdered_iff_key (a b : ExportRow) : sortOrdered a b ↔ sortKey a ≤ sortKey b := by
  rw [sortOrdered, sortKey, sortKey, Prod.Lex.le_iff, Prod.Lex.le_iff, Prod.Lex.le_iff]

theorem rowLE_trans (a b c : ExportRow) (hab : rowLE a b) (hbc : rowLE b c) :
    rowLE a c := by
  rw [rowLE_iff, sortOrdered_iff_key] at *
  exact le_trans hab hbc

theorem rowLE_total (a b : ExportRow) : rowLE a b || rowLE b a := by
  rw [Bool.or_eq_true, rowLE_iff, rowLE_iff, sortOrdered_iff_key, sortOrdered_iff_key]
  exact le_total _ _

theorem rowLE_of_sameSortKey {a b : ExportRow} (h : sameSortKey a b) : rowLE a b = true := by
  rw [rowLE_iff, sortOrdered_iff_key, sortKey, sortKey, h.1, h.2.1, h.2.2.1, h.2.2.2]

end Nowon

/-- C8: in both export views the sorted row sequences are ordered by date,
then facility display name, then court label, then slot start time (all
lexicographic string comparisons), and the sort is stable: two rows that
agree on all four keys appear in the output in their input order. -/
theorem C8_export_sort_order_and_stability :
    ∀ m : Nowon.MonthResults,
      List.Pairwise Nowon.sortOrdered (Nowon.sortedFull m) ∧
      List.Pairwise Nowon.sortOrdered (Nowon.sortedAvail m) ∧
      (∀ a b : Nowon.ExportRow, Nowon.sameSortKey a b →
        List.Sublist [a, b] (Nowon.allDataFull m) →
        List.Sublist [a, b] (Nowon.sortedFull m)) ∧
      (∀ a b : Nowon.ExportRow, Nowon.sameSortKey a b →
        List.Sublist [a, b] (Nowon.allDataAvail m) →
        List.Sublist [a, b] (Nowon.sortedAvail m)) := by
  intro m
  refine ⟨?_, ?_, ?_, ?_⟩
  · exact (List.sorted_mergeSort Nowon.rowLE_trans Nowon.rowLE_total
      (Nowon.allDataFull m)).imp (fun h => (Nowon.rowLE_iff _ _).mp h)
  · exact (List.sorted_mergeSort Nowon.rowLE_trans Nowon.rowLE_total
      (Nowon.allDataAvail m)).imp (fun h => (Nowon.rowLE_iff _ _).mp h)
  · intro a b hk hs
    exact List.pair_sublist_mergeSort Nowon.rowLE_trans Nowon.rowLE_total
      (Nowon.rowLE_of_sameSortKey hk) hs
  · intro a b hk hs
    exact List.pair_sublist_mergeSort Nowon.rowLE_trans Nowon.rowLE_total
      (Nowon.rowLE_of_sameSortKey hk) hs

/-- Witness for C8: two rows equal on all four sort keys (differing in end
time and status) stay in input order in both sorted views. -/
theorem C8_export_sort_order_and_stability_witness :
    Nowon.sameSortKey ⟨"2025-10-01", "1코트", "08:00", "09:00", "예약가능", "불암산"⟩
      ⟨"2025-10-01", "1코트", "08:00", "10:00", "예약가능", "불암산"⟩ ∧
    List.Sublist
      [⟨"2025-10-01", "1코트", "08:00", "09:00", "예약가능", "불암산"⟩,
       ⟨"2025-10-01", "1코트", "08:00", "10:00", "예약가능", "불암산"⟩]
      (Nowon.allDataFull ⟨[⟨"2025-10-01", "1코트", "08:00", "09:00", "예약가능"⟩,
        ⟨"2025-10-01", "1코트", "08:00", "10:00", "예약가능"⟩], [], []⟩) ∧
    List.Sublist
      [⟨"2025-10-01", "1코트", "08:00", "09:00", "예약가능", "불암산"⟩,
       ⟨"2025-10-01", "1코트", "08:00", "10:00", "예약가능", "불암산"⟩]
      (Nowon.sortedFull ⟨[⟨"2025-10-01", "1코트", "08:00", "09:00", "예약가능"⟩,
        ⟨"2025-10-01", "1코트", "08:00", "10:00", "예약가능"⟩], [], []⟩) ∧
    List.Sublist
      [⟨"2025-10-01", "1코트", "08:00", "09:00", "예약가능", "불암산"⟩,
       ⟨"2025-10-01", "1코트", "08:00", "10:00", "예약가능", "불암산"⟩]
      (Nowon.sortedAvail ⟨[⟨"2025-10-01", "1코트", "08:00", "09:00", "예약가능"⟩,
        ⟨"2025-10-01", "1코트", "08:00", "10:00", "예약가능"⟩], [], []⟩) := by
  refine ⟨by constructor <;> simp, by decide, ?_, ?_⟩
  · exact (C8_export_sort_order_and_stability _).2.2.1 _ _ (by constructor <;> simp)
      (by decide)
  · exact (C8_export_sort_order_and_stability _).2.2.2 _ _ (by constructor <;> simp)
      (by decide)

namespace Crawler

theorem toDigitsCore_eq_digits :
    ∀ (fuel n : Nat) (ds : List Char), 0 < n → n < fuel →
    Nat.toDigitsCore 10 fuel n ds = ((Nat.digits 10 n).reverse.map Nat.digitChar) ++ ds := by
  intro fuel
  induction fuel with
  | zero =>
      intro n ds h0 h
      omega
  | succ fuel ih =>
      intro n ds h0 h
      have hdig := Nat.digits_def' (by norm_num : (1 : Nat) < 10) h0
      rw [show Nat.toDigitsCore 10 (fuel + 1) n ds
          = if n / 10 = 0 then Nat.digitChar (n % 10) :: ds
            else Nat.toDigitsCore 10 fuel (n / 10) (Nat.digitChar (n % 10) :: ds) from rfl]
      by_cases hq : n / 10 = 0
      · rw [if_pos hq, hdig, hq, Nat.digits_zero]
        simp
      · rw [if_neg hq]
        have hdiv : n / 10 < n := Nat.div_lt_self h0 (by norm_num)
        rw [ih (n / 10) (Nat.digitChar (n % 10) :: ds) (Nat.pos_of_ne_zero hq) (by omega)]
        rw [hdig]
        simp [List.reverse_cons, List.map_append, List.append_assoc]

theorem reprData (n : Nat) : (Nat.repr n).data = (reprDigits n).map Nat.digitChar := by
  by_cases h0 : n = 0
  · subst h0
    rfl
  · have h1 : Nat.toDigits 10 n = (Nat.digits 10 n).reverse.map Nat.digitChar := by
      have := toDigitsCore_eq_digits (n + 1) n [] (Nat.pos_of_ne_zero h0) (by omega)
      simpa [Nat.toDigits] using this
    show (Nat.toDigits 10 n).asString.data = _
    rw [reprDigits, if_neg h0, h1]
    rfl

theorem reprDigits_lt (n : Nat) : ∀ d ∈ reprDigits n, d < 10 := by
  intro d hd
  rw [reprDigits] at hd
  split at hd
  · simp at hd
    omega
  · rw [List.mem_reverse] at hd
    exact Nat.digits_lt_base (by norm_num) hd

theorem digitChar_inj_lt :
    ∀ a, a < 10 → ∀ b, b < 10 → Nat.digitChar a = Nat.digitChar b → a = b := by
  decide

theorem digitChar_toNat_sub : ∀ a, a < 10 → (Nat.digitChar a).toNat - 48 = a := by
  decide

theorem digitChar_ne_dash : ∀ a, a < 10 → Nat.digitChar a ≠ '-' := by
  decide

theorem digitChar_ne_zero : ∀ a, a < 10 → a ≠ 0 → Nat.digitChar a ≠ '0' := by
  decide

theorem reprDigits_inj {m n : Nat} (h : reprDigits m = reprDigits n) : m = n := by
  have key : ∀ k : Nat, Nat.ofDigits 10 (reprDigits k).reverse = k := by
    intro k
    rw [reprDigits]
    split
    · next hk =>
        subst hk
        simp [Nat.ofDigits]
    · rw [List.reverse_reverse, Nat.ofDigits_digits]
  have h1 := congrArg (fun l => Nat.ofDigits 10 l.reverse) h
  simp only at h1
  rw [key m, key n] at h1
  exact_mod_cast h1

theorem repr_injective : Function.Injective Nat.repr := by
  intro m n h
  have hdata := congrArg String.data h
  rw [reprData, reprData] at hdata
  have hval : ∀ (l : List Nat), (∀ d ∈ l, d < 10) →
      (l.map Nat.digitChar).map (fun c : Char => c.toNat - 48) = l := by
    intro l hl
    rw [List.map_map]
    have h2 : ∀ d ∈ l, ((fun c : Char => c.toNat - 48) ∘ Nat.digitChar) d = d := fun d hd =>
      digitChar_toNat_sub d (hl d hd)
    rw [List.map_congr_left h2]
    simp
  have h1 := congrArg (List.map (fun c : Char => c.toNat - 48)) hdata
  rw [hval _ (reprDigits_lt m), hval _ (reprDigits_lt n)] at h1
  exact reprDigits_inj h1

theorem repr_shape (n : Nat) : ∃ d ds, reprDigits n = d :: ds ∧ d < 10 ∧
    (Nat.repr n).data = Nat.digitChar d :: ds.map Nat.digitChar ∧
    (ds ≠ [] → d ≠ 0) := by
  by_cases h0 : n = 0
  · subst h0
    exact ⟨0, [], rfl, by norm_num, rfl, fun h => absurd rfl h⟩
  · have hnil : Nat.digits 10 n ≠ [] := Nat.digits_ne_nil_iff_ne_zero.mpr h0
    have hrd : reprDigits n = (Nat.digits 10 n).reverse := by
      rw [reprDigits, if_neg h0]
    obtain ⟨d, ds, hds⟩ : ∃ d ds, (Nat.digits 10 n).reverse = d :: ds := by
      cases hrev : (Nat.digits 10 n).reverse with
      | nil => exact absurd (by simpa using hrev) hnil
      | cons d ds => exact ⟨d, ds, rfl⟩
    have hmem : d ∈ reprDigits n := by
      rw [hrd, hds]
      exact List.mem_cons_self _ _
    refine ⟨d, ds, by rw [hrd, hds], reprDigits_lt n d hmem, ?_, ?_⟩
    · rw [reprData, hrd, hds]
      rfl
    · intro _
      have hdig : Nat.digits 10 n = ds.reverse ++ [d] := by
        rw [← List.reverse_reverse (Nat.digits 10 n), hds]
        simp
      have h2 : (Nat.digits 10 n).getLast? = some d := by
        rw [hdig]
        simp
      have h5 := (List.getLast?_eq_getLast (Nat.digits 10 n)
        (Nat.digits_ne_nil_iff_ne_zero.mpr h0)).symm.trans h2
      have h6 := Option.some_inj.mp h5
      exact h6 ▸ Nat.getLast_digit_ne_zero 10 h0

theorem padStart2_data (s : String) :
    (padStart2 s).data = List.replicate (2 - s.data.length) '0' ++ s.data := by
  rw [padStart2]
  split
  · next hle =>
      have hx : s.length = s.data.length := rfl
      have h2 : 2 - s.data.length = 0 := by omega
      rw [h2]
      rfl
  · rfl

theorem padTwoInt_injective : Function.Injective padTwoInt := by
  have eOf : ∀ k : Nat, (toString (Int.ofNat k)).data = (Nat.repr k).data := fun k => rfl
  have eNeg : ∀ k : Nat, (toString (Int.negSucc k)).data = '-' :: (Nat.repr (k + 1)).data :=
    fun k => rfl
  have hform : ∀ (k d : Nat) (ds : List Nat), reprDigits k = d :: ds →
      (List.replicate (2 - (Nat.repr k).data.length) '0' ++ (Nat.repr k).data)
        = if ds.isEmpty then ['0', Nat.digitChar d]
          else Nat.digitChar d :: ds.map Nat.digitChar := by
    intro k d ds hrd
    have hL : (Nat.repr k).data = Nat.digitChar d :: ds.map Nat.digitChar := by
      rw [reprData, hrd]
      rfl
    cases ds with
    | nil =>
        rw [hL]
        rfl
    | cons e ds2 =>
        rw [hL]
        have hsub : 2 - (Nat.digitChar d :: (e :: ds2).map Nat.digitChar).length = 0 := by
          simp only [List.length_cons, List.length_map]
          omega
        rw [hsub]
        rfl
  have hformNeg : ∀ k : Nat,
      (List.replicate (2 - (toString (Int.negSucc k)).data.length) '0' ++
        (toString (Int.negSucc k)).data) = '-' :: (Nat.repr (k + 1)).data := by
    intro k
    obtain ⟨d, ds, hrd, -, hL, -⟩ := repr_shape (k + 1)
    rw [eNeg k, hL]
    have hsub : 2 - ('-' :: (Nat.digitChar d :: ds.map Nat.digitChar)).length = 0 := by
      simp only [List.length_cons]
      omega
    rw [hsub]
    rfl
  intro i j h
  have hdata := congrArg String.data h
  rw [padTwoInt, padTwoInt, padStart2_data, padStart2_data] at hdata
  cases i with
  | ofNat n =>
      obtain ⟨d, ds, hrd, hd10, hL, hnz⟩ := repr_shape n
      cases j with
      | ofNat n' =>
          obtain ⟨d', ds', hrd', hd10', hL', hnz'⟩ := repr_shape n'
          rw [eOf n, eOf n', hform n d ds hrd, hform n' d' ds' hrd'] at hdata
          cases ds with
          | nil =>
              cases ds' with
              | nil =>
                  simp only [List.isEmpty_nil, if_true, List.cons.injEq, and_true] at hdata
                  have hd_eq : d = d' := digitChar_inj_lt d hd10 d' hd10' hdata.2
                  have : n = n' := reprDigits_inj (by rw [hrd, hrd', hd_eq])
                  exact congrArg Int.ofNat this
              | cons e' ds2' =>
                  exfalso
                  simp only [List.isEmpty_nil, List.isEmpty_cons, if_true, if_false,
                    Bool.false_eq_true] at hdata
                  have hhead := congrArg List.head? hdata
                  simp only [List.head?_cons, Option.some_inj] at hhead
                  exact digitChar_ne_zero d' hd10' (hnz' (by simp)) hhead.symm
          | cons e ds2 =>
              cases ds' with
              | nil =>
                  exfalso
                  simp only [List.isEmpty_nil, List.isEmpty_cons, if_true, if_false,
                    Bool.false_eq_true] at hdata
                  have hhead := congrArg List.head? hdata
                  simp only [List.head?_cons, Option.some_inj] at hhead
                  exact digitChar_ne_zero d hd10 (hnz (by simp)) hhead
              | cons e' ds2' =>
                  simp only [List.isEmpty_cons, if_false, Bool.false_eq_true] at hdata
                  have hstr : Nat.repr n = Nat.repr n' := by
                    apply String.ext
                    rw [hL, hL']
                    exact hdata
                  exact congrArg Int.ofNat (repr_injective hstr)
      | negSucc m' =>
          exfalso
          rw [eOf n, hform n d ds hrd, hformNeg m'] at hdata
          cases ds with
          | nil =>
              simp only [List.isEmpty_nil, if_true] at hdata
              have hhead := congrArg List.head? hdata
              simp only [List.head?_cons, Option.some_inj] at hhead
              exact absurd hhead (by decide)
          | cons e ds2 =>
              simp only [List.isEmpty_cons, if_false, Bool.false_eq_true] at hdata
              have hhead := congrArg List.head? hdata
              simp only [List.head?_cons, Option.some_inj] at hhead
              exact digitChar_ne_dash d hd10 hhead
  | negSucc m =>
      cases j with
      | ofNat n' =>
          exfalso
          obtain ⟨d', ds', hrd', hd10', hL', hnz'⟩ := repr_shape n'
          rw [hformNeg m, eOf n', hform n' d' ds' hrd'] at hdata
          cases ds' with
          | nil =>
              simp only [List.isEmpty_nil, if_true] at hdata
              have hhead := congrArg List.head? hdata
              simp only [List.head?_cons, Option.some_inj] at hhead
              exact absurd hhead (by decide)
          | cons e' ds2' =>
              simp only [List.isEmpty_cons, if_false, Bool.false_eq_true] at hdata
              have hhead := congrArg List.head? hdata
              simp only [List.head?_cons, Option.some_inj] at hhead
              exact digitChar_ne_dash d' hd10' hhead.symm
      | negSucc m' =>
          rw [hformNeg m, hformNeg m'] at hdata
          have h2 : (Nat.repr (m + 1)).data = (Nat.repr (m' + 1)).data :=
            (List.cons_eq_cons.mp hdata).2
          have h3 := repr_injective (String.ext h2)
          have h4 : m = m' := by omega
          exact congrArg Int.negSucc h4

end Crawler

namespace Nowon

/-- Rendered start texts with different floors are different strings: the
two-digit rendering of `Math.floor` is injective on all integers. -/
theorem startText_inj (s t : ℚ) (h : startText s = startText t) : ⌊s⌋ = ⌊t⌋ := by
  rw [startText, startText] at h
  have hdata := congrArg String.data h
  rw [String.data_append, String.data_append] at hdata
  have hpad : Crawler.padTwoInt ⌊s⌋ = Crawler.padTwoInt ⌊t⌋ :=
    String.ext (List.append_cancel_right hdata)
  exact Crawler.padTwoInt_injective hpad

theorem floor_lt_floor {x y : ℚ} (h : x + 1 ≤ y) : ⌊x⌋ < ⌊y⌋ := by
  have h1 : ⌊x + 1⌋ ≤ ⌊y⌋ := Int.floor_mono h
  rw [Int.floor_add_one] at h1
  omega

theorem labels_nodup (cate2 : Nat) :
    ((courtsFor cate2).map (courtLabel (prefixFor cate2))).Nodup := by
  by_cases h17 : cate2 = 17
  · rw [h17]
    decide
  · by_cases h15 : cate2 = 15
    · rw [h15]
      decide
    · have e1 : courtsFor cate2
          = (List.range 9).map (fun i => toString (i + 1) ++ "코트@" ++ toString (20 + i + 1)) := by
        rw [courtsFor, if_neg h17, if_neg h15]
      have e2 : prefixFor cate2 = "1" := by
        rw [prefixFor, if_neg h17, if_neg h15]
      rw [e1, e2]
      decide

theorem genRows_keys_nodup (pickDate : String) (resSet courts : List String) (pfx : String) :
    ∀ (n : Nat) (start unit : ℚ),
    (courts.map (courtLabel pfx)).Nodup →
    1 ≤ unit →
    ((genRows pickDate resSet courts pfx start unit n).map slotKey).Nodup := by
  intro n
  induction n with
  | zero =>
      intro start unit _ _
      simp [genRows]
  | succ m ih =>
      intro start unit hlab hu
      have hu0 : (0 : ℚ) ≤ unit := le_trans zero_le_one hu
      simp only [genRows, Crawler.qadd_eq, List.map_append]
      rw [List.nodup_append]
      refine ⟨?_, ih (start + unit) unit hlab hu, ?_⟩
      · rw [List.map_map]
        have hcomp : (slotKey ∘ mkRow pickDate resSet pfx (startText start)
            (startText (start + unit)))
            = (fun l => (l, startText start)) ∘ courtLabel pfx := by
          funext c
          rfl
        rw [hcomp, ← List.map_map]
        exact List.Nodup.map (fun x y hxy => ((Prod.mk.injEq _ _ _ _).mp hxy).1) hlab
      · intro a ha hb
        rw [List.map_map, List.mem_map] at ha
        obtain ⟨c, -, rfl⟩ := ha
        rw [List.mem_map] at hb
        obtain ⟨r, hr, hkey⟩ := hb
        rw [mem_genRows] at hr
        obtain ⟨k, hk, c', -, rfl⟩ := hr
        have hsnd := congrArg Prod.snd hkey
        simp only [Function.comp_apply, slotKey, mkRow] at hsnd
        have hgap : start + 1 ≤ start + unit + (k : ℚ) * unit := by
          nlinarith [Nat.cast_nonneg (α := ℚ) k]
        have hne : ⌊start⌋ ≠ ⌊start + unit + (k : ℚ) * unit⌋ := by
          have hlt := floor_lt_floor hgap
          omega
        exact hne (startText_inj _ _ hsnd.symm)

end Nowon

/-- C7 (counterexample): with a fractional hour unit below one (0.5 h) the
consecutively generated start texts are not pairwise distinct: the schedule
`{start 6, unit 1/2, count 2}` floors both accumulator values to `06`, so the
same `(court_label, start)` pair occurs twice. -/
theorem C7_counterexample_fractional_duplicate :
    ¬ ((Nowon.crawlAvailableTimes ⟨6, mkRat 1 2, "2"⟩ [] 15 "d").map Nowon.slotKey).Nodup := by
  decide

/-- C7 (amended): whenever the hour unit is at least one hour — for every
begin hour, slot count, reserved list and facility — the generated rows
contain at most one slot per `(court_label, start)` pair: the mapped key
list has no duplicates.  (A fractional unit `< 1` can floor two consecutive
accumulator values to the same text, see the counterexample.) -/
theorem C7_at_most_one_slot_per_court_start :
    ∀ (res : Nowon.TimeListResponse) (reserved : List Nowon.ReservedItem) (cate2 : Nat)
      (pickDate : String),
      1 ≤ res.hourUnit →
      ((Nowon.crawlAvailableTimes res reserved cate2 pickDate).map Nowon.slotKey).Nodup := by
  intro res reserved cate2 pickDate hu
  exact Nowon.genRows_keys_nodup pickDate (Nowon.buildReservedSet reserved)
    (Nowon.courtsFor cate2) (Nowon.prefixFor cate2) (Nowon.parseIntLoopCount res.line)
    res.useBeginHour res.hourUnit (Nowon.labels_nodup cate2) hu

/-- Witness for C7 at schedule `{start 8, unit 1, count 2}`, facility 15. -/
theorem C7_at_most_one_slot_per_court_start_witness :
    ((Nowon.crawlAvailableTimes ⟨8, 1, "2"⟩ [] 15 "2025-10-01").map Nowon.slotKey).Nodup :=
  C7_at_most_one_slot_per_court_start ⟨8, 1, "2"⟩ [] 15 "2025-10-01" (by norm_num)
